import Mathlib

/-!
Verification of the MySQL connection adapter (`MysqlDBConnection` /
`MysqlDBFactory`) of the `@ticatec/mysql-common-library` repository,
as a shallow embedding of `src/MysqlDBFactory.ts`.

Modelling conventions:
* JavaScript strings are Lean `String`; character-level helpers work on
  `List Char` and are lifted.  Case conversion is modelled on the ASCII
  letters, which covers every identifier used by the library and the spec.
* Row cell values are a small inductive `CellVal`; a missing property of a
  JavaScript object reads as `CellVal.undef` (JavaScript `undefined`).
* The physical mysql2 connection is an abstract `PhysClient` record giving
  the outcome of each driver primitive; driver failures are `Except` errors.
* A value resolved by `client.execute(...)` is a `DriverResult` carrying
  both the positional elements obtained by array destructuring (`elem0`,
  `elem1`, as used in `fetchData`) and the named-property view (`props`,
  as used by `executeUpdate`, `insertRecord` and `updateRecord`, which read
  `.affectedRows`, `.rows` and `.fields` on the resolved value directly).
  The two views are kept independent because the mysql2 driver is outside
  this repository; the source itself uses both access styles.
* Methods return a `MethodOut` pairing the `Except` outcome with the list
  of log records emitted, so that logging side effects are observable.
-/

/-- Uppercase one ASCII letter; every other character is unchanged.
Models the segment-capitalisation step of the camelCase rule. -/
def upChar (c : Char) : Char :=
  match c with
  | 'a' => 'A' | 'b' => 'B' | 'c' => 'C' | 'd' => 'D' | 'e' => 'E'
  | 'f' => 'F' | 'g' => 'G' | 'h' => 'H' | 'i' => 'I' | 'j' => 'J'
  | 'k' => 'K' | 'l' => 'L' | 'm' => 'M' | 'n' => 'N' | 'o' => 'O'
  | 'p' => 'P' | 'q' => 'Q' | 'r' => 'R' | 's' => 'S' | 't' => 'T'
  | 'u' => 'U' | 'v' => 'V' | 'w' => 'W' | 'x' => 'X' | 'y' => 'Y'
  | 'z' => 'Z'
  | c => c

/-- Lowercase one ASCII letter; every other character is unchanged.
Models JavaScript `toLowerCase` on the identifiers this library handles. -/
def lowChar (c : Char) : Char :=
  match c with
  | 'A' => 'a' | 'B' => 'b' | 'C' => 'c' | 'D' => 'd' | 'E' => 'e'
  | 'F' => 'f' | 'G' => 'g' | 'H' => 'h' | 'I' => 'i' | 'J' => 'j'
  | 'K' => 'k' | 'L' => 'l' | 'M' => 'm' | 'N' => 'n' | 'O' => 'o'
  | 'P' => 'p' | 'Q' => 'q' | 'R' => 'r' | 'S' => 's' | 'T' => 't'
  | 'U' => 'u' | 'V' => 'v' | 'W' => 'w' | 'X' => 'x' | 'Y' => 'y'
  | 'Z' => 'z'
  | c => c

/-- Split a character list at every occurrence of the delimiter `d`.
Behaves like the JavaScript `split` on a one-character separator:
`"a_b" ↦ ["a", "b"]`, `"_a" ↦ ["", "a"]`, `"" ↦ [""]`. -/
def splitOnChar (d : Char) : List Char → List (List Char)
  | [] => [[]]
  | c :: cs =>
    if c = d then [] :: splitOnChar d cs
    else
      match splitOnChar d cs with
      | [] => [[c]]
      | seg :: rest => (c :: seg) :: rest

/-- Capitalise the first character of a segment. -/
def capFirst : List Char → List Char
  | [] => []
  | c :: cs => upChar c :: cs

/-- Modelled from the spec: the framework camelCase canonicalisation
`toCamel` inherited from the `DBConnection` base class of
`@ticatec/node-common-library`, which is not part of this repository.
Spec rule (section 4.3): split the identifier on the `_` separator, keep the
first segment, uppercase the first character of each later segment, and
concatenate with no separator.  Section 8 of the spec additionally requires
the function to be idempotent on already-canonical names, which fixes the
reading of the rule in which the first segment is kept as written. -/
def toCamelList (s : List Char) : List Char :=
  match splitOnChar '_' s with
  | [] => []
  | seg :: rest => seg ++ (rest.map capFirst).flatten

/-- String-level wrapper of `toCamelList`. -/
def toCamel (s : String) : String :=
  String.mk (toCamelList s.data)

/-- Model of JavaScript `toLowerCase` on a string (ASCII letters). -/
def lowerStr (s : String) : String :=
  String.mk (s.data.map lowChar)

/-- Value stored in one cell of a driver row.  `undef` models the JavaScript
`undefined` obtained when a row object is read at a property it lacks. -/
inductive CellVal where
  | vInt : Int → CellVal
  | vStr : String → CellVal
  | undef : CellVal
deriving DecidableEq

/-- A raw driver row: a JavaScript object, keyed by raw column name. -/
abbrev Row := List (String × CellVal)

/-- Property read on a row object: `row[name]`, `undefined` when absent. -/
def rowGet (r : Row) (k : String) : CellVal :=
  match r.lookup k with
  | some v => v
  | none => CellVal.undef

/-- Nested value assembled by the first-row projection: either a copied row
cell or a nested mapping. -/
inductive NVal where
  | leaf : CellVal → NVal
  | node : List (String × NVal) → NVal

/-- A nested output mapping (a plain JavaScript object), in key-insertion
order as JavaScript keeps it. -/
abbrev NObj := List (String × NVal)

/-- Write key `k` of an object: overwrite in place when present, append
otherwise — the JavaScript property-assignment order semantics. -/
def setKey (obj : NObj) (k : String) (v : NVal) : NObj :=
  match obj with
  | [] => [(k, v)]
  | (k', v') :: t => if k' = k then (k, v) :: t else (k', v') :: setKey t k v

/-- Write a value at a key path: each segment before the last selects (or
creates) an intermediate mapping; the last segment is the leaf key. -/
def setPath (obj : NObj) : List String → CellVal → NObj
  | [], _ => obj
  | [k], v => setKey obj k (NVal.leaf v)
  | k :: k' :: rest, v =>
    let sub : NObj :=
      match obj.lookup k with
      | some (NVal.node m) => m
      | _ => []
    setKey obj k (NVal.node (setPath sub (k' :: rest) v))

/-- Modelled from the spec: the framework helper `setNestObj` inherited from
the `DBConnection` base class of `@ticatec/node-common-library`, which is not
part of this repository.  Spec rule (section 4.3, step 3): the already
lowercased column name is split on the literal path delimiter `.`; every
segment before the last is a nesting level whose intermediate mapping is
created or reused, and the value is written at the final segment. -/
def setNestObj (ds : NObj) (name : String) (v : CellVal) : NObj :=
  setPath ds ((splitOnChar '.' name.data).map String.mk) v

/-- Column-metadata record as delivered by the driver: carries the raw
column name. -/
structure FieldMeta where
  name : String
deriving DecidableEq

/-- Semantic type tag of a `Field`.  Modelled from the spec: `FieldType`
comes from `@ticatec/node-common-library`; the source only ever uses the
generic text tag. -/
inductive FieldType where
  | Text
  | Number
deriving DecidableEq

/-- Canonical field descriptor produced by `getFields` (shape of the
framework `Field` value type). -/
structure DBField where
  name : String
  type : FieldType
deriving DecidableEq

/-- The named-property view `{rows, fields}` of a query result — the shape
`fetchData` returns and the shape the accessors `getFirstRow`, `getFields`
and `getRowSet` read. -/
structure QueryRes where
  rows : List Row
  fields : List FieldMeta

/-- Named-property view of a value resolved by `client.execute`: the
properties the adapter reads on it (`rows`, `fields`, `affectedRows`). -/
structure ResultProps extends QueryRes where
  affectedRows : Int

/-- Translation of `getFields` (src/MysqlDBFactory.ts:75-82): for each
column-metadata record push a `DBField` with the camelCased name and the
generic text tag. -/
def getFields (result : QueryRes) : List DBField :=
  result.fields.foldl
    (fun list f => list ++ [{ name := toCamel f.name, type := FieldType.Text }]) []

/-- Translation of `getRowSet` (src/MysqlDBFactory.ts:89-91). -/
def getRowSet (result : QueryRes) : List Row :=
  result.rows

/-- Translation of `getAffectRows` (src/MysqlDBFactory.ts:98-100): returns
the `affectedRows` property of the result, untransformed. -/
def getAffectRows (result : ResultProps) : Int :=
  result.affectedRows

/-- Translation of `buildFieldsMap` (src/MysqlDBFactory.ts:107-113): maps
each raw column name to the camelCase form of its lowercasing, in metadata
order (JavaScript `Map` keeps insertion order and overwrites in place). -/
def buildFieldsMap (fields : List FieldMeta) : List (String × String) :=
  fields.foldl
    (fun map f =>
      match map.lookup f.name with
      | some _ => map.map (fun p => if p.1 = f.name then (f.name, toCamel (lowerStr f.name)) else p)
      | none => map ++ [(f.name, toCamel (lowerStr f.name))]) []

/-- Translation of `getFirstRow` (src/MysqlDBFactory.ts:120-130): when the
result has at least one row, fold over the column metadata in order, writing
`rows[0][field.name]` into the nested object at the path given by the
lowercased field name; when the result has no row, return `none` (null). -/
def getFirstRow (result : QueryRes) : Option NObj :=
  match result.rows with
  | [] => none
  | r0 :: _ =>
    some (result.fields.foldl
      (fun ds f => setNestObj ds (lowerStr f.name) (rowGet r0 f.name)) [])

/-- Driver errors are carried as their message text; the adapter never
inspects or rewraps them. -/
abbrev DbErr := String

/-- A value resolved by `client.execute`: `elem0` and `elem1` are the
positional elements obtained by array destructuring (`let [rows, fields] =
...` in `fetchData`), and `props` is the named-property view read by
`executeUpdate`, `insertRecord` and `updateRecord`.  Both views of the
opaque mysql2 result are kept so each method can be translated with the
access style the source actually uses. -/
structure DriverResult where
  elem0 : List Row
  elem1 : List FieldMeta
  props : ResultProps

/-- Behaviour of the wrapped physical mysql2 pool connection: the outcome of
each driver primitive the adapter delegates to. -/
structure PhysClient where
  beginTr : Except DbErr Unit
  commitTr : Except DbErr Unit
  rollbackTr : Except DbErr Unit
  execute : String → List CellVal → Except DbErr DriverResult

/-- One record emitted to the logger. -/
inductive LogEntry where
  | debug : String → List CellVal → LogEntry
  | error : String → LogEntry
deriving DecidableEq

/-- Outcome of one adapter method: the value returned (or the propagated
driver error) together with the log records emitted. -/
structure MethodOut (α : Type) where
  result : Except DbErr α
  log : List LogEntry

/-- Translation of `beginTransaction` (src/MysqlDBFactory.ts:25-28):
delegates to the driver and propagates failure. -/
def beginTransaction (cl : PhysClient) : MethodOut Unit :=
  { result := cl.beginTr, log := [] }

/-- Translation of `commit` (src/MysqlDBFactory.ts:42-44): delegates to the
driver and propagates failure. -/
def commit (cl : PhysClient) : MethodOut Unit :=
  { result := cl.commitTr, log := [] }

/-- Translation of `rollback` (src/MysqlDBFactory.ts:50-56): delegates to
the driver; a failure is caught and logged, never rethrown. -/
def rollback (cl : PhysClient) : MethodOut Unit :=
  match cl.rollbackTr with
  | Except.ok _ => { result := Except.ok (), log := [] }
  | Except.error e =>
    { result := Except.ok (),
      log := [LogEntry.error ("Cannot rollback the database.\n" ++ e)] }

/-- Translation of `executeUpdate` (src/MysqlDBFactory.ts:64-68): log the
statement, execute it, and return `getAffectRows` of the resolved value
(read through its named-property view). -/
def executeUpdate (cl : PhysClient) (sql : String) (params : List CellVal) :
    MethodOut Int :=
  { result := (cl.execute sql params).map (fun r => getAffectRows r.props),
    log := [LogEntry.debug sql params] }

/-- Translation of `fetchData` (src/MysqlDBFactory.ts:138-142): log the
statement, destructure the resolved value as `[rows, fields]`, and return
`{rows, fields}` untransformed. -/
def fetchData (cl : PhysClient) (sql : String) (params : List CellVal) :
    MethodOut QueryRes :=
  { result := (cl.execute sql params).map
      (fun r => { rows := r.elem0, fields := r.elem1 }),
    log := [LogEntry.debug sql params] }

/-- Translation of `insertRecord` (src/MysqlDBFactory.ts:159-163): log the
statement, execute it, and return `getFirstRow` of the resolved value
itself (read through its named-property view, not destructured). -/
def insertRecord (cl : PhysClient) (sql : String) (params : List CellVal) :
    MethodOut (Option NObj) :=
  { result := (cl.execute sql params).map
      (fun r => getFirstRow r.props.toQueryRes),
    log := [LogEntry.debug sql params] }

/-- Translation of `updateRecord` (src/MysqlDBFactory.ts:171-175): same
body as `insertRecord`. -/
def updateRecord (cl : PhysClient) (sql : String) (params : List CellVal) :
    MethodOut (Option NObj) :=
  { result := (cl.execute sql params).map
      (fun r => getFirstRow r.props.toQueryRes),
    log := [LogEntry.debug sql params] }

/-- Translation of `deleteRecord` (src/MysqlDBFactory.ts:183-185): a direct
call to `executeUpdate`. -/
def deleteRecord (cl : PhysClient) (sql : String) (params : List CellVal) :
    MethodOut Int :=
  executeUpdate cl sql params

theorem splitOnChar_ne_nil (d : Char) (l : List Char) : splitOnChar d l ≠ [] := by
  induction l with
  | nil => simp [splitOnChar]
  | cons c cs ih =>
    unfold splitOnChar
    by_cases h : c = d
    · simp [h]
    · simp only [h, if_false]
      cases hs : splitOnChar d cs with
      | nil => simp
      | cons seg rest => simp

theorem mem_splitOnChar_not_delim (d : Char) (l : List Char) :
    ∀ seg ∈ splitOnChar d l, d ∉ seg := by
  induction l with
  | nil =>
    intro seg hs
    simp [splitOnChar] at hs
    subst hs
    simp
  | cons c cs ih =>
    intro seg hs
    unfold splitOnChar at hs
    by_cases h : c = d
    · simp [h] at hs
      rcases hs with h1 | h2
      · subst h1; simp
      · exact ih seg h2
    · cases hseq : splitOnChar d cs with
      | nil => exact absurd hseq (splitOnChar_ne_nil d cs)
      | cons seg0 rest =>
        simp only [h, if_false, hseq] at hs
        rcases List.mem_cons.mp hs with h1 | h2
        · subst h1
          intro hmem
          rcases List.mem_cons.mp hmem with h3 | h4
          · exact h h3.symm
          · exact ih seg0 (hseq ▸ List.mem_cons_self _ _) h4
        · exact ih seg (hseq ▸ List.mem_cons_of_mem _ h2)

theorem splitOnChar_of_not_mem (d : Char) (l : List Char) (h : d ∉ l) :
    splitOnChar d l = [l] := by
  induction l with
  | nil => rfl
  | cons c cs ih =>
    have hc : c ≠ d := fun hh => h (hh ▸ List.mem_cons_self c cs)
    have hcs : d ∉ cs := fun hh => h (List.mem_cons_of_mem _ hh)
    unfold splitOnChar
    simp only [hc, if_false, ih hcs]

theorem upChar_eq_underscore {c : Char} (h : upChar c = '_') : c = '_' := by
  unfold upChar at h
  split at h <;> simp_all

theorem not_underscore_mem_toCamelList (s : List Char) : '_' ∉ toCamelList s := by
  unfold toCamelList
  cases hs : splitOnChar '_' s with
  | nil => simp
  | cons seg rest =>
    intro hmem
    rcases List.mem_append.mp hmem with h1 | h2
    · exact mem_splitOnChar_not_delim '_' s seg (hs ▸ List.mem_cons_self _ _) h1
    · rw [List.mem_flatten] at h2
      obtain ⟨x, hx, hmx⟩ := h2
      rw [List.mem_map] at hx
      obtain ⟨seg', hseg', rfl⟩ := hx
      have hsub : '_' ∉ seg' :=
        mem_splitOnChar_not_delim '_' s seg' (hs ▸ List.mem_cons_of_mem _ hseg')
      cases seg' with
      | nil => simp [capFirst] at hmx
      | cons c0 cs0 =>
        simp only [capFirst, List.mem_cons] at hmx
        rcases hmx with h3 | h4
        · exact hsub (upChar_eq_underscore h3.symm ▸ List.mem_cons_self _ _)
        · exact hsub (List.mem_cons_of_mem _ h4)

theorem toCamelList_idem (s : List Char) :
    toCamelList (toCamelList s) = toCamelList s := by
  have h := splitOnChar_of_not_mem '_' (toCamelList s) (not_underscore_mem_toCamelList s)
  show (match splitOnChar '_' (toCamelList s) with
        | [] => []
        | seg :: rest => seg ++ (rest.map capFirst).flatten) = toCamelList s
  rw [h]
  simp

theorem foldl_push_eq_map {α β : Type} (g : α → β) (l : List α) (acc : List β) :
    l.foldl (fun list f => list ++ [g f]) acc = acc ++ l.map g := by
  induction l generalizing acc with
  | nil => simp
  | cons x xs ih => simp [List.foldl_cons, ih]

/-- A driver execute outcome used to instantiate the method theorems. -/
def demoResult : DriverResult :=
  { elem0 := [[("id", CellVal.vInt 1)]],
    elem1 := [{ name := "id" }],
    props := { rows := [[("id", CellVal.vInt 5)]],
               fields := [{ name := "id" }],
               affectedRows := 3 } }

/-- A physical client whose every primitive succeeds and whose execute
resolves to `demoResult`. -/
def okClient : PhysClient :=
  { beginTr := Except.ok ()
    commitTr := Except.ok ()
    rollbackTr := Except.ok ()
    execute := fun _ _ => Except.ok demoResult }

/-- A physical client whose every primitive fails. -/
def failClient : PhysClient :=
  { beginTr := Except.error "begin failed"
    commitTr := Except.error "commit failed"
    rollbackTr := Except.error "rollback failed"
    execute := fun _ _ => Except.error "statement failed" }

/-- C1: on a result with at least one row, `getFirstRow` visits each
column-metadata entry in result order, takes the value of row index 0 at
the raw column name, lowercases the raw name, splits it on the literal `.`
path delimiter, nests along every segment before the last (creating or
reusing intermediate mappings) and writes the value at the final segment;
on columns `["user_id", "profile.city"]` with row
`{user_id: 7, "profile.city": "NY"}` it returns
`{user_id: 7, profile: {city: "NY"}}`, a column with no delimiter becomes a
flat leaf key, and columns sharing a prefix path merge into one mapping. -/
theorem c1_getFirstRow_nested_projection :
    (∀ (res : QueryRes) (r0 : Row) (rs : List Row), res.rows = r0 :: rs →
      getFirstRow res =
        some (res.fields.foldl
          (fun ds f => setNestObj ds (lowerStr f.name) (rowGet r0 f.name)) [])) ∧
    (∀ res : QueryRes, res.rows ≠ [] → ∃ ds, getFirstRow res = some ds) ∧
    getFirstRow
      { rows := [[("user_id", CellVal.vInt 7), ("profile.city", CellVal.vStr "NY")]],
        fields := [{ name := "user_id" }, { name := "profile.city" }] }
      = some [("user_id", NVal.leaf (CellVal.vInt 7)),
              ("profile", NVal.node [("city", NVal.leaf (CellVal.vStr "NY"))])] ∧
    getFirstRow
      { rows := [[("qty", CellVal.vInt 2)]], fields := [{ name := "qty" }] }
      = some [("qty", NVal.leaf (CellVal.vInt 2))] ∧
    getFirstRow
      { rows := [[("a.b", CellVal.vInt 1), ("a.c", CellVal.vInt 2)]],
        fields := [{ name := "a.b" }, { name := "a.c" }] }
      = some [("a", NVal.node [("b", NVal.leaf (CellVal.vInt 1)),
                               ("c", NVal.leaf (CellVal.vInt 2))])] := by
  refine ⟨?_, ?_, rfl, rfl, rfl⟩
  · intro res r0 rs h
    unfold getFirstRow
    rw [h]
  · intro res h
    cases hr : res.rows with
    | nil => exact absurd hr h
    | cons r0 rs =>
      exact ⟨_, by unfold getFirstRow; rw [hr]⟩

/-- Closed instance of the quantified parts of the C1 theorem. -/
theorem c1_getFirstRow_nested_projection_witness :
    getFirstRow
      { rows := [[("x", CellVal.vInt 9)]], fields := [{ name := "x" }] }
      = some (([{ name := "x" }] : List FieldMeta).foldl
          (fun ds f => setNestObj ds (lowerStr f.name)
            (rowGet [("x", CellVal.vInt 9)] f.name)) []) ∧
    (∃ ds, getFirstRow
      { rows := [[("x", CellVal.vInt 9)]], fields := [{ name := "x" }] } = some ds) :=
  ⟨c1_getFirstRow_nested_projection.1
      { rows := [[("x", CellVal.vInt 9)]], fields := [{ name := "x" }] }
      [("x", CellVal.vInt 9)] [] rfl,
   c1_getFirstRow_nested_projection.2.1
      { rows := [[("x", CellVal.vInt 9)]], fields := [{ name := "x" }] }
      (by simp)⟩

/-- C2: on a result whose row collection is empty, `getFirstRow` returns
the null sentinel (`none`), never a mapping. -/
theorem c2_getFirstRow_zero_rows (res : QueryRes) (h : res.rows = []) :
    getFirstRow res = none := by
  unfold getFirstRow
  rw [h]

/-- Closed instance of the C2 theorem. -/
theorem c2_getFirstRow_zero_rows_witness :
    getFirstRow { rows := [], fields := [{ name := "user_id" }] } = none :=
  c2_getFirstRow_zero_rows { rows := [], fields := [{ name := "user_id" }] } rfl

/-- C3: `getFields` emits exactly one `DBField` per column-metadata record,
in metadata order, with the camelCased raw name and the generic text tag;
on `[{name:"user_id"}, {name:"first_name"}]` it yields
`[{name:"userId", type:Text}, {name:"firstName", type:Text}]`. -/
theorem c3_getFields_shape :
    (∀ res : QueryRes,
      getFields res =
        res.fields.map (fun f => { name := toCamel f.name, type := FieldType.Text })) ∧
    getFields { rows := [], fields := [{ name := "user_id" }, { name := "first_name" }] }
      = [{ name := "userId", type := FieldType.Text },
         { name := "firstName", type := FieldType.Text }] := by
  refine ⟨?_, rfl⟩
  intro res
  unfold getFields
  have h := foldl_push_eq_map
    (fun f : FieldMeta => ({ name := toCamel f.name, type := FieldType.Text } : DBField))
    res.fields []
  simpa using h

/-- C4: when the driver execute call resolves, `executeUpdate` returns the
value of `getAffectRows` on the resolved result, and `getAffectRows` is the
untransformed `affectedRows` property of that result. -/
theorem c4_executeUpdate_affected_rows
    (cl : PhysClient) (sql : String) (params : List CellVal) (r : DriverResult)
    (h : cl.execute sql params = Except.ok r) :
    (executeUpdate cl sql params).result = Except.ok (getAffectRows r.props) ∧
    getAffectRows r.props = r.props.affectedRows := by
  constructor
  · unfold executeUpdate
    rw [h]
    rfl
  · rfl

/-- Closed instance of the C4 theorem: `okClient` reports 3 affected rows. -/
theorem c4_executeUpdate_affected_rows_witness :
    (executeUpdate okClient "UPDATE t SET x=?" [CellVal.vInt 1]).result
      = Except.ok (getAffectRows demoResult.props) ∧
    getAffectRows demoResult.props = 3 :=
  ⟨(c4_executeUpdate_affected_rows okClient "UPDATE t SET x=?" [CellVal.vInt 1]
      demoResult rfl).1, rfl⟩

/-- C5: `rollback` never raises: for every behaviour of the physical
rollback primitive the method returns normally, and on failure it emits a
log record; `commit` and `beginTransaction` instead propagate the failure
of their primitives. -/
theorem c5_rollback_never_raises (cl : PhysClient) :
    (rollback cl).result = Except.ok () ∧
    (∀ e : DbErr, cl.rollbackTr = Except.error e →
      (rollback cl).log = [LogEntry.error ("Cannot rollback the database.\n" ++ e)]) ∧
    (∀ e : DbErr, cl.commitTr = Except.error e →
      (commit cl).result = Except.error e) ∧
    (∀ e : DbErr, cl.beginTr = Except.error e →
      (beginTransaction cl).result = Except.error e) := by
  refine ⟨?_, ?_, ?_, ?_⟩
  · unfold rollback
    cases cl.rollbackTr <;> rfl
  · intro e he
    unfold rollback
    rw [he]
  · intro e he
    unfold commit
    rw [he]
  · intro e he
    unfold beginTransaction
    rw [he]

/-- Closed instance of the C5 theorem on the all-failing client. -/
theorem c5_rollback_never_raises_witness :
    (rollback failClient).result = Except.ok () ∧
    (rollback failClient).log
      = [LogEntry.error "Cannot rollback the database.\nrollback failed"] ∧
    (commit failClient).result = Except.error "commit failed" ∧
    (beginTransaction failClient).result = Except.error "begin failed" :=
  ⟨(c5_rollback_never_raises failClient).1,
   (c5_rollback_never_raises failClient).2.1 "rollback failed" rfl,
   (c5_rollback_never_raises failClient).2.2.1 "commit failed" rfl,
   (c5_rollback_never_raises failClient).2.2.2 "begin failed" rfl⟩

/-- C6: `deleteRecord` is the very call `executeUpdate` makes — the two
methods give identical outcomes (value, error and log) on every client,
statement and parameter list. -/
theorem c6_deleteRecord_delegates (cl : PhysClient) (sql : String)
    (params : List CellVal) :
    deleteRecord cl sql params = executeUpdate cl sql params := rfl

/-- C7: when the driver execute call resolves to the pair `[rows, fields]`,
`fetchData` returns `{rows, fields}` with both collections exactly as the
driver delivered them, untransformed. -/
theorem c7_fetchData_raw (cl : PhysClient) (sql : String)
    (params : List CellVal) (r : DriverResult)
    (h : cl.execute sql params = Except.ok r) :
    (fetchData cl sql params).result
      = Except.ok ({ rows := r.elem0, fields := r.elem1 } : QueryRes) := by
  unfold fetchData
  rw [h]
  rfl

/-- Closed instance of the C7 theorem. -/
theorem c7_fetchData_raw_witness :
    (fetchData okClient "SELECT * FROM t" []).result
      = Except.ok ({ rows := demoResult.elem0, fields := demoResult.elem1 } : QueryRes) :=
  c7_fetchData_raw okClient "SELECT * FROM t" [] demoResult rfl

/-- C8: the camelCase canonicalisation is a pure total function on strings
(it is a Lean function, so it is deterministic by construction), and it is
idempotent on every non-empty input: canonicalising an already canonical
name returns it unchanged. -/
theorem c8_toCamel_idempotent (s : String) (_h : s ≠ "") :
    toCamel (toCamel s) = toCamel s := by
  unfold toCamel
  simp [toCamelList_idem]

/-- Closed instance of the C8 theorem at a snake_case identifier. -/
theorem c8_toCamel_idempotent_witness :
    toCamel (toCamel "user_id") = toCamel "user_id" ∧ toCamel "user_id" = "userId" :=
  ⟨c8_toCamel_idempotent "user_id" (by decide), by decide⟩

/-- C9: `insertRecord` and `updateRecord` apply `getFirstRow` to the value
resolved by the driver execute call itself, reading its `rows` and `fields`
named properties, while `fetchData` destructures the positional elements of
that value; hence the insert and update projections are determined by the
named-property view alone — two resolved values with identical positional
elements but different named properties give identical `fetchData` results
and different `insertRecord` and `updateRecord` results. -/
theorem c9_insert_update_read_props :
    (∀ (cl : PhysClient) (sql : String) (params : List CellVal) (r : DriverResult),
      cl.execute sql params = Except.ok r →
      (insertRecord cl sql params).result
        = Except.ok (getFirstRow r.props.toQueryRes) ∧
      (updateRecord cl sql params).result
        = Except.ok (getFirstRow r.props.toQueryRes) ∧
      (fetchData cl sql params).result
        = Except.ok ({ rows := r.elem0, fields := r.elem1 } : QueryRes)) ∧
    (∀ r r' : DriverResult, r.props = r'.props →
      getFirstRow r.props.toQueryRes = getFirstRow r'.props.toQueryRes) ∧
    (∃ cl cl' : PhysClient,
      (∀ (s : String) (p : List CellVal),
        (fetchData cl s p).result = (fetchData cl' s p).result) ∧
      (insertRecord cl "" []).result ≠ (insertRecord cl' "" []).result ∧
      (updateRecord cl "" []).result ≠ (updateRecord cl' "" []).result) := by
  refine ⟨?_, ?_, ?_⟩
  · intro cl sql params r h
    unfold insertRecord updateRecord fetchData
    rw [h]
    exact ⟨rfl, rfl, rfl⟩
  · intro r r' h
    rw [h]
  · refine ⟨{ beginTr := Except.ok (), commitTr := Except.ok (),
              rollbackTr := Except.ok (),
              execute := fun _ _ => Except.ok
                { elem0 := [], elem1 := [],
                  props := { rows := [], fields := [], affectedRows := 0 } } },
            { beginTr := Except.ok (), commitTr := Except.ok (),
              rollbackTr := Except.ok (),
              execute := fun _ _ => Except.ok
                { elem0 := [], elem1 := [],
                  props := { rows := [[]], fields := [], affectedRows := 0 } } },
            fun _ _ => rfl, ?_, ?_⟩ <;>
    · intro h
      simp [insertRecord, updateRecord, getFirstRow, Except.map] at h

/-- Closed instance of the quantified parts of the C9 theorem. -/
theorem c9_insert_update_read_props_witness :
    (insertRecord okClient "INSERT" []).result
      = Except.ok (getFirstRow demoResult.props.toQueryRes) ∧
    (updateRecord okClient "UPDATE" []).result
      = Except.ok (getFirstRow demoResult.props.toQueryRes) ∧
    getFirstRow demoResult.props.toQueryRes
      = getFirstRow demoResult.props.toQueryRes :=
  ⟨(c9_insert_update_read_props.1 okClient "INSERT" [] demoResult rfl).1,
   (c9_insert_update_read_props.1 okClient "UPDATE" [] demoResult rfl).2.1,
   c9_insert_update_read_props.2.1 demoResult demoResult rfl⟩

/-- C10: `getFirstRow` builds the output key path from the lowercased field
name but reads the value of row 0 under the original, non-lowercased field
name: a raw name with uppercase letters yields fully lowercased output keys
holding the value stored under the raw name, and yields the undefined value
when the row keys only the lowercased form. -/
theorem c10_lowercased_keys_raw_value_lookup :
    getFirstRow
      { rows := [[("UserName", CellVal.vStr "bob")]],
        fields := [{ name := "UserName" }] }
      = some [("username", NVal.leaf (CellVal.vStr "bob"))] ∧
    getFirstRow
      { rows := [[("username", CellVal.vStr "bob")]],
        fields := [{ name := "UserName" }] }
      = some [("username", NVal.leaf CellVal.undef)] ∧
    (∀ (r0 : Row) (f : FieldMeta),
      getFirstRow { rows := [r0], fields := [f] }
        = some (setNestObj [] (lowerStr f.name) (rowGet r0 f.name))) := by
  refine ⟨rfl, rfl, ?_⟩
  intro r0 f
  rfl
